import Mathlib

/-!
Verification of the styled QR renderer (`src/qrCodeGen.py`).

The renderer is shallowly embedded here:
* Python integers become `Int`; Python `//` (floor division) becomes
  `Int.fdiv`; `math.ceil(a / b)` for positive operands becomes explicit
  ceiling division on `Int` (exact at the magnitudes the renderer uses).
* Python floats that hold exact user-facing fractions (`dotScale`,
  `centerScale`) become `ℚ`; `int(x)` (truncation toward zero) becomes
  `truncQ`.
* PIL drawing calls (`draw.rectangle`, `draw.ellipse`) are the external
  drawing surface; the painter is embedded as the list of drawing commands
  it emits, each carrying the exact coordinates passed to the surface.
  The final float-to-pixel rounding of a dot's bounding box belongs to the
  raster boundary and is not modelled; a dot command carries its exact
  center and radius.
* The external QR encoder is out of scope; the module matrix is an input.
-/

namespace QrGen

/-- Python `int(q)` for a rational `q`: truncation toward zero. -/
def truncQ (q : ℚ) : Int :=
  if q < 0 then ⌈q⌉ else ⌊q⌋

/-- Ceiling division on integers, `math.ceil(a / b)` for `b > 0`
(the renderer only divides by the positive `modulePx`). -/
def ceilDivInt (a b : Int) : Int :=
  -(Int.fdiv (-a) b)

/-- Line 41-45: `_isInFinder(row, col, n)` — membership in one of the three
7×7 finder blocks (top-left, top-right, bottom-left). -/
def _isInFinder (row col n : Int) : Bool :=
  decide (((0 ≤ row ∧ row < 7) ∧ (0 ≤ col ∧ col < 7)) ∨
          ((0 ≤ row ∧ row < 7) ∧ (n - 7 ≤ col ∧ col < n)) ∨
          ((n - 7 ≤ row ∧ row < n) ∧ (0 ≤ col ∧ col < 7)))

/-- The errors the renderer raises: line 111's `ValueError` when the canvas
cannot host the symbol plus quiet zone, and line 117's `ValueError` when
`colorHex` does not parse as three hexadecimal components. -/
inductive RenderError where
  | insufficientCanvas
  | invalidColor
deriving DecidableEq, Repr

/-- The geometry the solver produces (lines 112-113). -/
structure Geometry where
  modulePx : Int
  marginPerSide : Int
deriving DecidableEq, Repr

/-- Lines 104-111: the `while True` search.  `fuel` counts how many times
`modulePx` may still be decremented before falling below `minModulePx`;
the loop body tests `marginPerSide >= requiredQuietModules * modulePx`. -/
def solveLoop (n targetPx requiredQuietModules : Int) : Nat → Int → Except RenderError Geometry
  | 0, modulePx =>
    if requiredQuietModules * modulePx ≤ Int.fdiv (targetPx - modulePx * n) 2 then
      .ok ⟨modulePx, Int.fdiv (targetPx - modulePx * n) 2⟩
    else
      .error .insufficientCanvas
  | fuel + 1, modulePx =>
    if requiredQuietModules * modulePx ≤ Int.fdiv (targetPx - modulePx * n) 2 then
      .ok ⟨modulePx, Int.fdiv (targetPx - modulePx * n) 2⟩
    else
      solveLoop n targetPx requiredQuietModules fuel (modulePx - 1)

/-- Lines 103-113: start at `max(minModulePx, symbolPxGoal // n)` and search
downward; error once `modulePx` would drop below `minModulePx`. -/
def solve (n targetPx symbolPxGoal minModulePx requiredQuietModules : Int) :
    Except RenderError Geometry :=
  let start := max minModulePx (Int.fdiv symbolPxGoal n)
  solveLoop n targetPx requiredQuietModules (start - minModulePx).toNat start

/-- The quiet-zone test of line 107 at a candidate module size. -/
def quietOk (n targetPx requiredQuietModules m : Int) : Prop :=
  requiredQuietModules * m ≤ Int.fdiv (targetPx - m * n) 2

instance (n targetPx q m : Int) : Decidable (quietOk n targetPx q m) := by
  unfold quietOk; infer_instance

/-- A 7×7 block of modules anchored at `(r0, c0)`, as §4.2 of the spec
describes the finder corners. -/
def inBlock (r0 c0 row col : Int) : Prop :=
  r0 ≤ row ∧ row < r0 + 7 ∧ c0 ≤ col ∧ col < c0 + 7

instance (r0 c0 row col : Int) : Decidable (inBlock r0 c0 row col) := by
  unfold inBlock; infer_instance

/-- Lines 129-139: the reserved square's side length in modules.  With a
logo, the desired logo side `max(1, int(targetPx * centerScale))` plus the
pixel cushion is converted to modules by ceiling division and clamped; a
provided override is then folded in with
`max(res_modules, min(n, reserveModules))`. -/
def computeResModules (n modulePx targetPx : Int) (centerScale : ℚ)
    (reservePaddingModules : Int) (logoPresent : Bool)
    (reserveModules : Option Int) : Int :=
  let res0 : Int :=
    if logoPresent then
      let desiredLogoPx := max 1 (truncQ ((targetPx : ℚ) * centerScale))
      let padPx := reservePaddingModules * modulePx
      let totalResPx := desiredLogoPx + 2 * padPx
      max 0 (min n (ceilDivInt totalResPx modulePx))
    else 0
  match reserveModules with
  | none => res0
  | some ov => max res0 (min n ov)

/-- Lines 142-146: center the reserved square; `(-1, -1)` is the code's
sentinel for an absent region. -/
def resBounds (n resModules : Int) : Int × Int :=
  if 0 < resModules then
    let s := Int.fdiv (n - resModules) 2
    (s, s + resModules - 1)
  else (-1, -1)

/-- The reserve side length exactly as §4.3 of the spec words it:
`clamp(ceil((floor(targetPx·centerScale) + 2·padding·modulePx) / modulePx), 0, N)`. -/
def reserveCountSpec (n modulePx targetPx : Int) (centerScale : ℚ)
    (reservePaddingModules : Int) : Int :=
  min n (max 0 (ceilDivInt (⌊(targetPx : ℚ) * centerScale⌋ +
    2 * reservePaddingModules * modulePx) modulePx))

/-- `mat[row][col]` with Python-style safe default (a real matrix is square,
so the default is never hit for in-range indices). -/
def matGet (mat : List (List Bool)) (row col : Nat) : Bool :=
  (mat.getD row []).getD col false

/-- One `draw.ellipse` command emitted by the data-dot pass: the module cell
it came from and the exact center and radius handed to the drawing surface
(lines 149, 159-163). -/
structure DotOp where
  row : Nat
  col : Nat
  cx : ℚ
  cy : ℚ
  radius : ℚ

/-- The body of the dot loop (lines 152-163): the three `continue` guards —
light module, finder cell, reserved cell — then the ellipse command with
center `offset + col·modulePx + modulePx/2` and radius `modulePx·dotScale/2`. -/
def dotAt (mat : List (List Bool)) (n : Nat) (offsetX offsetY modulePx : Int)
    (dotScale : ℚ) (resModules resStart resEnd : Int) (row col : Nat) :
    Option DotOp :=
  if !(matGet mat row col) then none
  else if _isInFinder (row : Int) (col : Int) (n : Int) then none
  else if 0 < resModules ∧ resStart ≤ (row : Int) ∧ (row : Int) ≤ resEnd ∧
      resStart ≤ (col : Int) ∧ (col : Int) ≤ resEnd then none
  else some
    { row := row, col := col
      cx := (offsetX : ℚ) + (col : ℚ) * (modulePx : ℚ) + (modulePx : ℚ) / 2
      cy := (offsetY : ℚ) + (row : ℚ) * (modulePx : ℚ) + (modulePx : ℚ) / 2
      radius := ((modulePx : ℚ) * dotScale) / 2 }

/-- Lines 150-163: the full data-dot pass over the `n × n` grid. -/
def paintDots (mat : List (List Bool)) (n : Nat) (offsetX offsetY modulePx : Int)
    (dotScale : ℚ) (resModules resStart resEnd : Int) : List DotOp :=
  (List.range n).flatMap fun row =>
    (List.range n).filterMap fun col =>
      dotAt mat n offsetX offsetY modulePx dotScale resModules resStart resEnd row col

/-- One `draw.rectangle` command: PIL corner coordinates, both inclusive. -/
structure Rect where
  x0 : Int
  y0 : Int
  x1 : Int
  y1 : Int

/-- The pixels a filled PIL rectangle covers. -/
def Rect.covers (r : Rect) (px py : Int) : Prop :=
  r.x0 ≤ px ∧ px ≤ r.x1 ∧ r.y0 ≤ py ∧ py ≤ r.y1

instance (r : Rect) (px py : Int) : Decidable (r.covers px py) := by
  unfold Rect.covers; infer_instance

/-- Lines 47-55: `_drawFinderSquares` — four bars forming the outer ring,
then the 3×3-module center block, as rectangle commands. -/
def _drawFinderSquares (topLeftX topLeftY modulePx : Int) : List Rect :=
  let x := topLeftX
  let y := topLeftY
  let m := modulePx
  [ ⟨x, y, x + 7*m - 1, y + 1*m - 1⟩,
    ⟨x, y + 6*m, x + 7*m - 1, y + 7*m - 1⟩,
    ⟨x, y + 1*m, x + 1*m - 1, y + 6*m - 1⟩,
    ⟨x + 6*m, y + 1*m, x + 7*m - 1, y + 6*m - 1⟩,
    ⟨x + 2*m, y + 2*m, x + 5*m - 1, y + 5*m - 1⟩ ]

/-- Lines 121-125: the three finder corners `(0,0)`, `(0,n−7)`, `(n−7,0)`
in `(row, col)` module coordinates. -/
def finderCorners (n : Int) : List (Int × Int) :=
  [(0, 0), (0, n - 7), (n - 7, 0)]

/-- Lines 121-125: one glyph per corner, anchored at
`offset + cornerModule * modulePx`. -/
def paintFinders (offsetX offsetY modulePx n : Int) : List Rect :=
  (finderCorners n).flatMap fun fc =>
    _drawFinderSquares (offsetX + fc.2 * modulePx) (offsetY + fc.1 * modulePx)
      modulePx

/-- The 7×7-module square footprint of a glyph anchored at pixel `(x, y)`. -/
def inGlyphSquare (x y m px py : Int) : Prop :=
  x ≤ px ∧ px < x + 7*m ∧ y ≤ py ∧ py < y + 7*m

/-- The outer one-module-thick ring of a glyph. -/
def inGlyphRing (x y m px py : Int) : Prop :=
  inGlyphSquare x y m px py ∧
    (px < x + m ∨ x + 6*m ≤ px ∨ py < y + m ∨ y + 6*m ≤ py)

/-- The solid centered 3×3-module block of a glyph. -/
def inGlyphCenter (x y m px py : Int) : Prop :=
  x + 2*m ≤ px ∧ px < x + 5*m ∧ y + 2*m ≤ py ∧ py < y + 5*m

/-- The one-module-wide gap between the ring and the center block. -/
def inGlyphGap (x y m px py : Int) : Prop :=
  x + m ≤ px ∧ px < x + 6*m ∧ y + m ≤ py ∧ py < y + 6*m ∧
    ¬inGlyphCenter x y m px py

instance (x y m px py : Int) : Decidable (inGlyphGap x y m px py) := by
  unfold inGlyphGap inGlyphCenter; infer_instance

/-- The value of one hexadecimal digit (`0-9`, `a-f`, `A-F`). -/
def hexDigitVal (c : Char) : Option Int :=
  if '0' ≤ c ∧ c ≤ '9' then some ((c.toNat : Int) - ('0'.toNat : Int))
  else if 'a' ≤ c ∧ c ≤ 'f' then some ((c.toNat : Int) - ('a'.toNat : Int) + 10)
  else if 'A' ≤ c ∧ c ≤ 'F' then some ((c.toNat : Int) - ('A'.toNat : Int) + 10)
  else none

/-- After a first digit, Python's `int(s, 16)` accepts further digits with
single underscores allowed only between digits. -/
def hexDigits : List Char → Int → Option Int
  | [], acc => some acc
  | '_' :: c :: rest, acc =>
    match hexDigitVal c with
    | some d => hexDigits rest (16 * acc + d)
    | none => none
  | '_' :: [], _acc => none
  | c :: rest, acc =>
    match hexDigitVal c with
    | some d => hexDigits rest (16 * acc + d)
    | none => none

/-- The ASCII whitespace Python strips around an `int(...)` literal. -/
def isPySpace (c : Char) : Bool :=
  c == ' ' || c == '\t' || c == '\n' || c == '\r' || c == '\x0b' || c == '\x0c'

/-- Python `int(s, 16)`: optional surrounding whitespace, an optional sign,
an optional `0x`/`0X` prefix (base 16) possibly followed by one underscore,
then a nonempty run of hex digits with single underscores between digits;
anything else raises `ValueError` (modelled as `none`).  Modelled over
ASCII; Python would additionally accept non-ASCII digit and whitespace
codepoints, which never arise from a color string. -/
def pyIntHex (cs : List Char) : Option Int :=
  let body := ((cs.dropWhile isPySpace).reverse.dropWhile isPySpace).reverse
  let signed : Bool × List Char :=
    match body with
    | '+' :: rest => (false, rest)
    | '-' :: rest => (true, rest)
    | rest => (false, rest)
  let digits : List Char :=
    match signed.2 with
    | '0' :: 'x' :: rest =>
      (match rest with
       | '_' :: rest2 => rest2
       | rest2 => rest2)
    | '0' :: 'X' :: rest =>
      (match rest with
       | '_' :: rest2 => rest2
       | rest2 => rest2)
    | rest => rest
  match digits with
  | c :: rest =>
    match hexDigitVal c with
    | some d =>
      match hexDigits rest d with
      | some v => some (if signed.1 then -v else v)
      | none => none
    | none => none
  | [] => none

/-- Python `colorHex.strip("#")`: remove leading and trailing `#`. -/
def stripHash (cs : List Char) : List Char :=
  (((cs.dropWhile fun c => c == '#').reverse.dropWhile fun c => c == '#')).reverse

/-- Line 117: `tuple(int(colorHex.strip("#")[i:i+2], 16) for i in (0, 2, 4))
+ (255,)`.  The slices never raise; any slice that `int(…, 16)` rejects
(empty included) raises `ValueError`, modelled as `none`. -/
def parseColorHex (colorHex : String) : Option (Int × Int × Int × Int) :=
  let s := stripHash colorHex.data
  match pyIntHex ((s.drop 0).take 2), pyIntHex ((s.drop 2).take 2),
      pyIntHex ((s.drop 4).take 2) with
  | some r, some g, some b => some (r, g, b, 255)
  | _, _, _ => none

/-- The configuration surface of `generateStyledQrFixedFill` (lines 74-91),
minus the payload and logo bitmap themselves: the logo's presence is the
only fact about it the layout consumes, and the error-correction choice
only feeds the external encoder, which is out of scope (the module matrix
is an input here). -/
structure StyleConfig where
  targetPx : Int
  symbolPxGoal : Int
  minModulePx : Int
  requiredQuietModules : Int
  dotScale : ℚ
  colorHex : String
  logoPresent : Bool
  centerScale : ℚ
  reserveModules : Option Int
  reservePaddingModules : Int
  drawLogoBackdrop : Bool
  backdropCornerRadiusPx : Int

/-- Everything the render computes and draws before the logo compositing
step: the solved geometry, the parsed fill color every drawing command
uses, the reserve region, and the two streams of drawing commands. -/
structure RenderResult where
  geometry : Geometry
  color : Int × Int × Int × Int
  resModules : Int
  resStart : Int
  resEnd : Int
  finderOps : List Rect
  dotOps : List DotOp

/-- Lines 92-163 of `generateStyledQrFixedFill`: the layout-and-paint
pipeline on a given module matrix — geometry solve (103-113), color parse
(117, `invalidColor` on a malformed `colorHex`), finder glyphs (121-125),
reserve region (129-146) and data dots (149-163).  Canvas allocation and
the logo compositing of lines 165-188 belong to the drawing surface.  The
embedding is total where Python would raise `ZeroDivisionError`: at line
103 for an empty matrix and at line 136 for `modulePx = 0` (reachable only
when `minModulePx ≤ 0`); theorems about the failure modes therefore assume
a nonempty matrix and `1 ≤ minModulePx`. -/
def generateStyledQrFixedFill (mat : List (List Bool)) (cfg : StyleConfig) :
    Except RenderError RenderResult :=
  let n : Int := (mat.length : Int)
  match solve n cfg.targetPx cfg.symbolPxGoal cfg.minModulePx
      cfg.requiredQuietModules with
  | .error e => .error e
  | .ok g =>
    match parseColorHex cfg.colorHex with
    | none => .error .invalidColor
    | some color =>
      let offsetX := g.marginPerSide
      let offsetY := g.marginPerSide
      let finderOps := paintFinders offsetX offsetY g.modulePx n
      let resModules := computeResModules n g.modulePx cfg.targetPx
        cfg.centerScale cfg.reservePaddingModules cfg.logoPresent
        cfg.reserveModules
      let rb := resBounds n resModules
      let dotOps := paintDots mat mat.length offsetX offsetY g.modulePx
        cfg.dotScale resModules rb.1 rb.2
      .ok ⟨g, color, resModules, rb.1, rb.2, finderOps, dotOps⟩

/-- A 21×21 all-light module matrix, a minimal concrete render input. -/
def matAllLight : List (List Bool) :=
  List.replicate 21 (List.replicate 21 false)

/-- A configuration whose `dotScale = 2` lies outside the documented range
`[0.5, 1.0]` (all other values in range, no logo). -/
def cfgDotScaleOutOfRange : StyleConfig :=
  ⟨250, 200, 3, 4, 2, "#000000", false, 1/5, none, 1, true, 12⟩

/-- A configuration whose `targetPx = 50` is too small for the symbol plus
quiet zone (and also outside the documented range `[200, 1024]`). -/
def cfgTooSmall : StyleConfig :=
  ⟨50, 100, 3, 4, 41/50, "#000000", false, 1/5, none, 1, true, 12⟩

/-- If no candidate in the window `[m - fuel, m]` passes the quiet-zone test,
the search exhausts its fuel and reports an insufficient canvas. -/
theorem solveLoop_error (n targetPx q : Int) (fuel : Nat) (m : Int)
    (h : ∀ k : Int, m - fuel ≤ k → k ≤ m → ¬ quietOk n targetPx q k) :
    solveLoop n targetPx q fuel m = .error .insufficientCanvas := by
  induction fuel generalizing m with
  | zero =>
    have hm := h m (by omega) (by omega)
    unfold quietOk at hm
    simp only [solveLoop]
    rw [if_neg hm]
  | succ fuel ih =>
    have hm := h m (by push_cast; omega) (by omega)
    unfold quietOk at hm
    simp only [solveLoop]
    rw [if_neg hm]
    exact ih (m - 1) (fun k hk1 hk2 => h k (by push_cast at hk1 ⊢; omega) (by omega))

/-- If `k` is the largest candidate in the window `[m - fuel, m]` passing the
quiet-zone test, the search stops exactly at `k` and returns its margin. -/
theorem solveLoop_ok (n targetPx q : Int) (fuel : Nat) (m k : Int)
    (hk1 : m - fuel ≤ k) (hk2 : k ≤ m) (hP : quietOk n targetPx q k)
    (hmax : ∀ j : Int, k < j → j ≤ m → ¬ quietOk n targetPx q j) :
    solveLoop n targetPx q fuel m = .ok ⟨k, Int.fdiv (targetPx - k * n) 2⟩ := by
  induction fuel generalizing m with
  | zero =>
    have hkm : k = m := by omega
    subst hkm
    unfold quietOk at hP
    simp only [solveLoop]
    rw [if_pos hP]
  | succ fuel ih =>
    by_cases hm : quietOk n targetPx q m
    · have hkm : k = m := by
        rcases lt_or_eq_of_le hk2 with h | h
        · exact absurd hm (hmax m h le_rfl)
        · exact h
      subst hkm
      unfold quietOk at hP
      simp only [solveLoop]
      rw [if_pos hP]
    · have hkm : k ≤ m - 1 := by
        rcases lt_or_eq_of_le hk2 with h | h
        · omega
        · subst h; exact absurd hP hm
      unfold quietOk at hm
      simp only [solveLoop]
      rw [if_neg hm]
      exact ih (m - 1) (by push_cast at hk1 ⊢; omega) hkm
        (fun j hj1 hj2 => hmax j hj1 (by omega))

/-- If some candidate in `[minModulePx, start]` passes the quiet-zone test,
`solve` succeeds and returns the largest passing candidate. -/
theorem solve_ok_of_sat (n targetPx symbolPxGoal minModulePx q : Int)
    (m0 : Int) (h0 : minModulePx ≤ m0)
    (h1 : m0 ≤ max minModulePx (Int.fdiv symbolPxGoal n))
    (hP0 : quietOk n targetPx q m0) :
    ∃ m : Int,
      solve n targetPx symbolPxGoal minModulePx q =
        .ok ⟨m, Int.fdiv (targetPx - m * n) 2⟩ ∧
      minModulePx ≤ m ∧ m ≤ max minModulePx (Int.fdiv symbolPxGoal n) ∧
      q * m ≤ Int.fdiv (targetPx - m * n) 2 ∧ m0 ≤ m ∧
      ∀ j : Int, m < j → j ≤ max minModulePx (Int.fdiv symbolPxGoal n) →
        ¬ quietOk n targetPx q j := by
  set start := max minModulePx (Int.fdiv symbolPxGoal n) with hstart
  have hsm : minModulePx ≤ start := le_max_left _ _
  have hfuel : ((start - minModulePx).toNat : Int) = start - minModulePx := by
    omega
  have hne : ({x ∈ Finset.Icc minModulePx start | quietOk n targetPx q x}).Nonempty :=
    ⟨m0, by simp only [Finset.mem_filter, Finset.mem_Icc]; exact ⟨⟨h0, h1⟩, hP0⟩⟩
  obtain ⟨m, hm, hmax⟩ := Finset.exists_max_image _ id hne
  simp only [Finset.mem_filter, Finset.mem_Icc] at hm
  refine ⟨m, ?_, hm.1.1, hm.1.2, hm.2, ?_, ?_⟩
  · unfold solve
    rw [← hstart]
    exact solveLoop_ok n targetPx q _ start m (by omega) hm.1.2 hm.2
      (fun j hj1 hj2 hPj => by
        have := hmax j (by
          simp only [Finset.mem_filter, Finset.mem_Icc]
          exact ⟨⟨by omega, hj2⟩, hPj⟩)
        simp only [id] at this
        omega)
  · have := hmax m0 (by
      simp only [Finset.mem_filter, Finset.mem_Icc]
      exact ⟨⟨h0, h1⟩, hP0⟩)
    simpa using this
  · intro j hj1 hj2 hPj
    have := hmax j (by
      simp only [Finset.mem_filter, Finset.mem_Icc]
      exact ⟨⟨by omega, hj2⟩, hPj⟩)
    simp only [id] at this
    omega

/-- If `solve` errors, no candidate in the whole search window passed the
quiet-zone test. -/
theorem solve_error_no_sat (n targetPx symbolPxGoal minModulePx q : Int)
    (h : solve n targetPx symbolPxGoal minModulePx q = .error .insufficientCanvas) :
    ∀ m : Int, minModulePx ≤ m → m ≤ max minModulePx (Int.fdiv symbolPxGoal n) →
      ¬ quietOk n targetPx q m := by
  intro m h0 h1 hP
  obtain ⟨m1, hok, _⟩ := solve_ok_of_sat n targetPx symbolPxGoal minModulePx q m h0 h1 hP
  rw [h] at hok
  exact absurd hok (by simp)

/-- C1: the geometry solver.  If some candidate module size in
`[minModulePx, max(minModulePx, symbolPxGoal // N)]` passes the quiet-zone
test, `solve` returns the largest one together with
`marginPerSide = (targetPx − modulePx·N) // 2` (which then dominates
`requiredQuietModules · modulePx`); if none does, it fails with the
insufficient-canvas error. -/
theorem solve_correct (n targetPx symbolPxGoal minModulePx q : Int) (_hn : 21 ≤ n) :
    (∀ m0 : Int, minModulePx ≤ m0 → m0 ≤ max minModulePx (Int.fdiv symbolPxGoal n) →
      quietOk n targetPx q m0 →
      ∃ m : Int,
        solve n targetPx symbolPxGoal minModulePx q =
          .ok ⟨m, Int.fdiv (targetPx - m * n) 2⟩ ∧
        minModulePx ≤ m ∧ m ≤ max minModulePx (Int.fdiv symbolPxGoal n) ∧
        q * m ≤ Int.fdiv (targetPx - m * n) 2 ∧ m0 ≤ m ∧
        ∀ j : Int, m < j → j ≤ max minModulePx (Int.fdiv symbolPxGoal n) →
          ¬ quietOk n targetPx q j) ∧
    ((∀ m : Int, minModulePx ≤ m → m ≤ max minModulePx (Int.fdiv symbolPxGoal n) →
        ¬ quietOk n targetPx q m) →
      solve n targetPx symbolPxGoal minModulePx q = .error .insufficientCanvas) := by
  constructor
  · exact fun m0 h0 h1 hP0 => solve_ok_of_sat n targetPx symbolPxGoal minModulePx q m0 h0 h1 hP0
  · intro h
    unfold solve
    exact solveLoop_error n targetPx q _ _
      (fun k hk1 hk2 => h k (by omega) hk2)

/-- Witness for `solve_correct` at the spec's end-to-end scenario sizes
(`N = 25`, `targetPx = 250`, `symbolPxGoal = 200`, `minModulePx = 3`,
`requiredQuietModules = 4`): the solver succeeds and returns the largest
candidate, which is `modulePx = 7` with margin `37`. -/
theorem solve_correct_witness :
    ∃ m : Int,
      solve 25 250 200 3 4 = .ok ⟨m, Int.fdiv (250 - m * 25) 2⟩ ∧
      3 ≤ m ∧ m ≤ max 3 (Int.fdiv 200 25) ∧
      4 * m ≤ Int.fdiv (250 - m * 25) 2 ∧ 7 ≤ m ∧
      ∀ j : Int, m < j → j ≤ max 3 (Int.fdiv 200 25) → ¬ quietOk 25 250 4 j :=
  (solve_correct 25 250 200 3 4 (by decide)).1 7 (by decide) (by decide) (by decide)

/-- C3: for `N ≥ 21` and any in-range cell, `_isInFinder` holds exactly on the
three 7×7 blocks anchored at `(0,0)`, `(0,N−7)` and `(N−7,0)`; it is false on
the whole bottom-right 7×7 corner region, and the three blocks are pairwise
disjoint. -/
theorem finder_blocks (n row col : Int) (hn : 21 ≤ n)
    (hr0 : 0 ≤ row) (hrn : row < n) (hc0 : 0 ≤ col) (hcn : col < n) :
    (_isInFinder row col n = true ↔
      (inBlock 0 0 row col ∨ inBlock 0 (n - 7) row col ∨ inBlock (n - 7) 0 row col)) ∧
    (n - 7 ≤ row → n - 7 ≤ col → _isInFinder row col n = false) ∧
    ¬(inBlock 0 0 row col ∧ inBlock 0 (n - 7) row col) ∧
    ¬(inBlock 0 0 row col ∧ inBlock (n - 7) 0 row col) ∧
    ¬(inBlock 0 (n - 7) row col ∧ inBlock (n - 7) 0 row col) := by
  simp only [_isInFinder, inBlock, decide_eq_true_eq, decide_eq_false_iff_not]
  omega

/-- Witness for `finder_blocks` at `N = 25`, cell `(3, 20)`: a top-right
finder cell. -/
theorem finder_blocks_witness :
    (_isInFinder 3 20 25 = true ↔
      (inBlock 0 0 3 20 ∨ inBlock 0 (25 - 7) 3 20 ∨ inBlock (25 - 7) 0 3 20)) ∧
    ((25 : Int) - 7 ≤ 3 → (25 : Int) - 7 ≤ 20 → _isInFinder 3 20 25 = false) ∧
    ¬(inBlock 0 0 3 20 ∧ inBlock 0 (25 - 7) 3 20) ∧
    ¬(inBlock 0 0 3 20 ∧ inBlock (25 - 7) 0 3 20) ∧
    ¬(inBlock 0 (25 - 7) 3 20 ∧ inBlock (25 - 7) 0 3 20) :=
  finder_blocks 25 3 20 (by decide) (by decide) (by decide) (by decide) (by decide)

/-- The computed (override-free) reserve side is never negative. -/
theorem computeResModules_nonneg (n m t : Int) (c : ℚ) (p : Int) (logo : Bool) :
    0 ≤ computeResModules n m t c p logo none := by
  unfold computeResModules
  cases logo <;> simp

/-- Line 139 in isolation: a provided override is folded in with
`max(res_modules, min(n, reserveModules))`. -/
theorem computeResModules_some_eq (n m t : Int) (c : ℚ) (p : Int) (logo : Bool)
    (v : Int) :
    computeResModules n m t c p logo (some v) =
      max (computeResModules n m t c p logo none) (min n v) := by
  unfold computeResModules
  cases logo <;> simp

/-- The reserve side never exceeds `n` (for `n ≥ 0`), whatever the override. -/
theorem computeResModules_le (n m t : Int) (c : ℚ) (p : Int) (logo : Bool)
    (ov : Option Int) (hn : 0 ≤ n) :
    computeResModules n m t c p logo ov ≤ n := by
  unfold computeResModules
  cases logo <;> cases ov <;> simp <;> omega

/-- C4 counterexample: with a logo present (`N = 25`, `modulePx = 3`,
`targetPx = 250`, `centerScale = 1/5`, one padding module) the computed
reserve side is 19, and the explicit override 3 does NOT take precedence:
the result stays 19 instead of the override clamped to `[0, N]`, which
would be 3. -/
theorem reserve_override_loses_counterexample :
    computeResModules 25 3 250 (1/5) 1 true (some 3) = 19 ∧
    computeResModules 25 3 250 (1/5) 1 true none = 19 ∧
    max 0 (min 25 3) = 3 ∧ (19 : Int) ≠ 3 := by
  refine ⟨?_, ?_, by decide, by decide⟩ <;>
    · norm_num [computeResModules, truncQ, ceilDivInt]
      decide

/-- C4 amended: a zero or absent override yields the computed value, and a
provided override `ov` is folded in as a lower bound via
`max(computed, min(N, ov))` — so the override takes precedence exactly when
its clamped value is at least the computed one, and the computed value wins
whenever the override is smaller. -/
theorem reserve_override_is_lower_bound (n m t : Int) (c : ℚ) (p : Int)
    (logo : Bool) (ov : Int) (hn : 0 ≤ n) :
    computeResModules n m t c p logo (some 0) =
      computeResModules n m t c p logo none ∧
    computeResModules n m t c p logo (some ov) =
      max (computeResModules n m t c p logo none) (min n ov) ∧
    (computeResModules n m t c p logo none ≤ min n ov →
      computeResModules n m t c p logo (some ov) = min n ov) ∧
    (min n ov ≤ computeResModules n m t c p logo none →
      computeResModules n m t c p logo (some ov) =
        computeResModules n m t c p logo none) := by
  have h0 := computeResModules_nonneg n m t c p logo
  set r := computeResModules n m t c p logo none with hr
  have hsome : ∀ v : Int, computeResModules n m t c p logo (some v) =
      max r (min n v) := fun v => computeResModules_some_eq n m t c p logo v
  refine ⟨?_, hsome ov, ?_, ?_⟩
  · rw [hsome 0]; omega
  · intro h; rw [hsome ov]; omega
  · intro h; rw [hsome ov]; omega

/-- Witness for `reserve_override_is_lower_bound` at `N = 25`,
`modulePx = 3`, `targetPx = 250`, `centerScale = 1/5`, padding 1, logo
present, override 30 (computed value is 19, the clamped override 25 wins). -/
theorem reserve_override_is_lower_bound_witness :
    computeResModules 25 3 250 (1/5) 1 true (some 0) =
      computeResModules 25 3 250 (1/5) 1 true none ∧
    computeResModules 25 3 250 (1/5) 1 true (some 30) =
      max (computeResModules 25 3 250 (1/5) 1 true none) (min 25 30) ∧
    computeResModules 25 3 250 (1/5) 1 true (some 30) = min 25 30 := by
  obtain ⟨h1, h2, h3, _⟩ := reserve_override_is_lower_bound 25 3 250 (1/5) 1 true 30 (by decide)
  refine ⟨h1, h2, h3 ?_⟩
  norm_num [computeResModules, truncQ, ceilDivInt]

/-- C5 counterexample: with NO logo (`N = 25`) but an explicit override of 5,
the reserve side is 5, not 0 — the region is present, and a dark module at
its very center would be skipped by the painter even though no logo exists. -/
theorem reserve_no_logo_counterexample :
    computeResModules 25 3 250 (1/5) 1 false (some 5) = 5 ∧ (5 : Int) ≠ 0 ∧
    resBounds 25 5 = (10, 14) := by
  refine ⟨by decide, by decide, by decide⟩

/-- C5 amended: with no logo the computed reserve side is 0 (region absent)
when the override is absent or nonpositive; a positive override `ov`
produces a present region of side `min(N, ov)` even without a logo. -/
theorem reserve_no_logo (n m t : Int) (c : ℚ) (p : Int) (hn : 0 ≤ n) :
    computeResModules n m t c p false none = 0 ∧
    (∀ ov : Int, ov ≤ 0 → computeResModules n m t c p false (some ov) = 0) ∧
    (∀ ov : Int, 0 < ov → computeResModules n m t c p false (some ov) = min n ov) := by
  refine ⟨rfl, ?_, ?_⟩ <;> intro ov hov <;> unfold computeResModules <;> simp <;> omega

/-- Witness for `reserve_no_logo` at `N = 25`. -/
theorem reserve_no_logo_witness :
    computeResModules 25 3 250 (1/5) 1 false none = 0 ∧
    computeResModules 25 3 250 (1/5) 1 false (some 0) = 0 ∧
    computeResModules 25 3 250 (1/5) 1 false (some 5) = min 25 5 := by
  obtain ⟨h1, h2, h3⟩ := reserve_no_logo 25 3 250 (1/5) 1 (by decide)
  exact ⟨h1, h2 0 (by decide), h3 5 (by decide)⟩

/-- Containment of a centered reserved square: whenever `0 < count ≤ n`,
the bounds of `resBounds` lie inside `[0, n)`. -/
theorem resBounds_contained (n count : Int) (h1 : 0 < count) (h2 : count ≤ n) :
    0 ≤ (resBounds n count).1 ∧ (resBounds n count).1 ≤ (resBounds n count).2 ∧
      (resBounds n count).2 < n := by
  unfold resBounds
  rw [if_pos h1]
  rw [Int.fdiv_eq_ediv _ (by norm_num : (0:ℤ) ≤ 2)]
  simp only
  omega

/-- For `targetPx ≥ 200` and `centerScale ≥ 1/20`, the desired logo side has
floor at least 10, so it is nonnegative and the `max 1` guard is inert. -/
theorem floor_logo_side_ge (t : Int) (c : ℚ) (ht : 200 ≤ t) (hc : 1/20 ≤ c) :
    10 ≤ ⌊(t : ℚ) * c⌋ ∧ ¬((t : ℚ) * c < 0) := by
  have ht' : (200 : ℚ) ≤ (t : ℚ) := by exact_mod_cast ht
  have hq : (10 : ℚ) ≤ (t : ℚ) * c := by nlinarith
  exact ⟨Int.le_floor.mpr (by exact_mod_cast hq), by linarith⟩

/-- C6: with a logo and no (or a zero) override, the reserve side equals the
spec formula `clamp(ceil((floor(targetPx·centerScale) + 2·padding·modulePx)
/ modulePx), 0, N)`, the region is the centered square with
`startModule = (N − count) // 2` and `endModule = startModule + count − 1`,
and a zero count leaves the region absent. -/
theorem reserve_computed_formula (n m t pad : Int) (c : ℚ) (ov : Option Int)
    (hn : 0 ≤ n) (ht : 200 ≤ t) (hc : 1/20 ≤ c)
    (hov : ov = none ∨ ov = some 0) :
    computeResModules n m t c pad true ov = reserveCountSpec n m t c pad ∧
    (0 < computeResModules n m t c pad true ov →
      resBounds n (computeResModules n m t c pad true ov) =
        (Int.fdiv (n - computeResModules n m t c pad true ov) 2,
         Int.fdiv (n - computeResModules n m t c pad true ov) 2 +
           computeResModules n m t c pad true ov - 1)) ∧
    (computeResModules n m t c pad true ov = 0 →
      resBounds n (computeResModules n m t c pad true ov) = (-1, -1)) := by
  obtain ⟨hfl, hneg⟩ := floor_logo_side_ge t c ht hc
  have hmain : computeResModules n m t c pad true ov = reserveCountSpec n m t c pad := by
    have hbase : computeResModules n m t c pad true none = reserveCountSpec n m t c pad := by
      unfold computeResModules reserveCountSpec truncQ
      simp only [↓reduceIte, if_neg hneg,
        max_eq_right (by omega : (1:ℤ) ≤ ⌊(t : ℚ) * c⌋)]
      have harg : ⌊(t : ℚ) * c⌋ + 2 * (pad * m) = ⌊(t : ℚ) * c⌋ + 2 * pad * m := by ring
      rw [harg]
      generalize ceilDivInt (⌊(t : ℚ) * c⌋ + 2 * pad * m) m = x
      omega
    rcases hov with h | h <;> subst h
    · exact hbase
    · rw [computeResModules_some_eq, hbase]
      have h0 : 0 ≤ reserveCountSpec n m t c pad := by
        rw [← hbase]
        exact computeResModules_nonneg n m t c pad true
      generalize reserveCountSpec n m t c pad = x at h0 ⊢
      omega
  refine ⟨hmain, fun hpos => ?_, fun hzero => ?_⟩
  · unfold resBounds
    rw [if_pos hpos]
  · rw [hzero]
    unfold resBounds
    norm_num

/-- Witness for `reserve_computed_formula` at `N = 25`, `modulePx = 3`,
`targetPx = 250`, `centerScale = 1/5`, one padding module, no override. -/
theorem reserve_computed_formula_witness :
    computeResModules 25 3 250 (1/5) 1 true none = reserveCountSpec 25 3 250 (1/5) 1 ∧
    (0 < computeResModules 25 3 250 (1/5) 1 true none →
      resBounds 25 (computeResModules 25 3 250 (1/5) 1 true none) =
        (Int.fdiv (25 - computeResModules 25 3 250 (1/5) 1 true none) 2,
         Int.fdiv (25 - computeResModules 25 3 250 (1/5) 1 true none) 2 +
           computeResModules 25 3 250 (1/5) 1 true none - 1)) ∧
    (computeResModules 25 3 250 (1/5) 1 true none = 0 →
      resBounds 25 (computeResModules 25 3 250 (1/5) 1 true none) = (-1, -1)) :=
  reserve_computed_formula 25 3 250 1 (1/5) none (by decide) (by decide)
    (by norm_num) (Or.inl rfl)

/-- C7: any computed reserve region with positive side is fully contained in
`[0, N)`: `0 ≤ startModule ≤ endModule < N`, for every override, scale and
padding (extreme values clamp to `N` rather than escaping the matrix). -/
theorem reserve_region_contained (n m t : Int) (c : ℚ) (pad : Int) (logo : Bool)
    (ov : Option Int) (hn : 21 ≤ n)
    (hpos : 0 < computeResModules n m t c pad logo ov) :
    0 ≤ (resBounds n (computeResModules n m t c pad logo ov)).1 ∧
    (resBounds n (computeResModules n m t c pad logo ov)).1 ≤
      (resBounds n (computeResModules n m t c pad logo ov)).2 ∧
    (resBounds n (computeResModules n m t c pad logo ov)).2 < n :=
  resBounds_contained n _ hpos (computeResModules_le n m t c pad logo ov (by omega))

/-- Witness for `reserve_region_contained`: `N = 25` with the computed side
19 gives the region `[3, 21] ⊆ [0, 25)`. -/
theorem reserve_region_contained_witness :
    0 ≤ (resBounds 25 (computeResModules 25 3 250 (1/5) 1 true none)).1 ∧
    (resBounds 25 (computeResModules 25 3 250 (1/5) 1 true none)).1 ≤
      (resBounds 25 (computeResModules 25 3 250 (1/5) 1 true none)).2 ∧
    (resBounds 25 (computeResModules 25 3 250 (1/5) 1 true none)).2 < 25 :=
  reserve_region_contained 25 3 250 (1/5) 1 true none (by decide)
    (by norm_num [computeResModules, truncQ, ceilDivInt]; decide)

/-- C10: while a logo is present the reserve side is at least 1 — whatever
the override (including 0) and even with zero padding — so the centered
region is nonempty and reservation cannot be disabled. -/
theorem reserve_positive_with_logo (n m t : Int) (c : ℚ) (pad : Int)
    (ov : Option Int) (hn : 21 ≤ n) (hm : 1 ≤ m) (_ht : 200 ≤ t)
    (_hc : 1/20 ≤ c) (hpad : 0 ≤ pad) :
    1 ≤ computeResModules n m t c pad true ov ∧
    0 ≤ (resBounds n (computeResModules n m t c pad true ov)).1 ∧
    (resBounds n (computeResModules n m t c pad true ov)).1 ≤
      (resBounds n (computeResModules n m t c pad true ov)).2 ∧
    (resBounds n (computeResModules n m t c pad true ov)).2 < n := by
  have hdes : (1 : ℤ) ≤ max 1 (truncQ ((t : ℚ) * c)) := le_max_left _ _
  have hpadpx : 0 ≤ pad * m := mul_nonneg hpad (by omega)
  have htot : (1 : ℤ) ≤ max 1 (truncQ ((t : ℚ) * c)) + 2 * (pad * m) := by omega
  have hceil : (1 : ℤ) ≤ ceilDivInt (max 1 (truncQ ((t : ℚ) * c)) + 2 * (pad * m)) m := by
    unfold ceilDivInt
    rw [Int.fdiv_eq_ediv _ (by omega : (0:ℤ) ≤ m)]
    have := Int.ediv_neg' (a := -(max 1 (truncQ ((t : ℚ) * c)) + 2 * (pad * m)))
      (b := m) (by omega) (by omega)
    omega
  have hres : 1 ≤ computeResModules n m t c pad true ov := by
    unfold computeResModules
    cases ov <;> simp only [↓reduceIte] <;> omega
  exact ⟨hres, resBounds_contained n _ (by omega)
    (computeResModules_le n m t c pad true ov (by omega))⟩

/-- Witness for `reserve_positive_with_logo`: logo present with override 0
and zero padding at `N = 25` still reserves at least one module. -/
theorem reserve_positive_with_logo_witness :
    1 ≤ computeResModules 25 3 250 (1/5) 0 true (some 0) ∧
    0 ≤ (resBounds 25 (computeResModules 25 3 250 (1/5) 0 true (some 0))).1 ∧
    (resBounds 25 (computeResModules 25 3 250 (1/5) 0 true (some 0))).1 ≤
      (resBounds 25 (computeResModules 25 3 250 (1/5) 0 true (some 0))).2 ∧
    (resBounds 25 (computeResModules 25 3 250 (1/5) 0 true (some 0))).2 < 25 :=
  reserve_positive_with_logo 25 3 250 (1/5) 0 (some 0) (by decide) (by decide)
    (by decide) (by norm_num) (by decide)

/-- Inversion for the loop body: the guards and the emitted command. -/
theorem dotAt_eq_some (mat : List (List Bool)) (n : Nat)
    (offsetX offsetY modulePx : Int) (dotScale : ℚ)
    (resModules resStart resEnd : Int) (row col : Nat) (op : DotOp) :
    dotAt mat n offsetX offsetY modulePx dotScale resModules resStart resEnd
        row col = some op ↔
      matGet mat row col = true ∧
      _isInFinder (row : Int) (col : Int) (n : Int) = false ∧
      ¬(0 < resModules ∧ resStart ≤ (row : Int) ∧ (row : Int) ≤ resEnd ∧
          resStart ≤ (col : Int) ∧ (col : Int) ≤ resEnd) ∧
      op = { row := row, col := col
             cx := (offsetX : ℚ) + (col : ℚ) * (modulePx : ℚ) + (modulePx : ℚ) / 2
             cy := (offsetY : ℚ) + (row : ℚ) * (modulePx : ℚ) + (modulePx : ℚ) / 2
             radius := ((modulePx : ℚ) * dotScale) / 2 } := by
  unfold dotAt
  split_ifs with h1 h2 h3
  · simp only [Bool.not_eq_true'] at h1
    simp [h1]
  · simp only [Bool.not_eq_true'] at h1
    simp [h1, h2]
  · simp only [Bool.not_eq_true'] at h1
    simp [h1, h2, h3]
  · simp only [Bool.not_eq_true'] at h1
    constructor
    · intro h
      exact ⟨by simp [h1], by simp [h2], h3, (Option.some_inj.mp h).symm⟩
    · intro ⟨_, _, _, h⟩
      exact congrArg some h.symm

/-- C2: the data-dot pass draws a dot at cell `(row, col)` iff the module is
dark, the cell is not a finder cell, and the cell is not inside the reserve
region; any dot drawn there is a circle centered in the module cell with
diameter `modulePx · dotScale`. -/
theorem painter_dot_rule (mat : List (List Bool)) (n : Nat)
    (offsetX offsetY modulePx : Int) (dotScale : ℚ)
    (resModules resStart resEnd : Int) (row col : Nat)
    (hr : row < n) (hc : col < n) :
    ((∃ op ∈ paintDots mat n offsetX offsetY modulePx dotScale
        resModules resStart resEnd, op.row = row ∧ op.col = col) ↔
      (matGet mat row col = true ∧
       _isInFinder (row : Int) (col : Int) (n : Int) = false ∧
       ¬(0 < resModules ∧ resStart ≤ (row : Int) ∧ (row : Int) ≤ resEnd ∧
          resStart ≤ (col : Int) ∧ (col : Int) ≤ resEnd))) ∧
    (∀ op ∈ paintDots mat n offsetX offsetY modulePx dotScale
        resModules resStart resEnd, op.row = row → op.col = col →
      op.cx = (offsetX : ℚ) + (col : ℚ) * (modulePx : ℚ) + (modulePx : ℚ) / 2 ∧
      op.cy = (offsetY : ℚ) + (row : ℚ) * (modulePx : ℚ) + (modulePx : ℚ) / 2 ∧
      2 * op.radius = (modulePx : ℚ) * dotScale) := by
  constructor
  · constructor
    · rintro ⟨op, hop, hrow, hcol⟩
      simp only [paintDots, List.mem_flatMap, List.mem_filterMap,
        List.mem_range] at hop
      obtain ⟨r, _, c, _, heq⟩ := hop
      rw [dotAt_eq_some] at heq
      obtain ⟨hdark, hfind, hres, hopeq⟩ := heq
      have hr' : r = row := by rw [hopeq] at hrow; exact hrow
      have hc' : c = col := by rw [hopeq] at hcol; exact hcol
      subst hr'; subst hc'
      exact ⟨hdark, hfind, hres⟩
    · rintro ⟨hdark, hfind, hres⟩
      refine ⟨{ row := row, col := col
                cx := (offsetX : ℚ) + (col : ℚ) * (modulePx : ℚ) + (modulePx : ℚ) / 2
                cy := (offsetY : ℚ) + (row : ℚ) * (modulePx : ℚ) + (modulePx : ℚ) / 2
                radius := ((modulePx : ℚ) * dotScale) / 2 }, ?_, rfl, rfl⟩
      simp only [paintDots, List.mem_flatMap, List.mem_filterMap, List.mem_range]
      exact ⟨row, hr, col, hc, (dotAt_eq_some mat n offsetX offsetY modulePx
        dotScale resModules resStart resEnd row col _).mpr
        ⟨hdark, hfind, hres, rfl⟩⟩
  · intro op hop hrow hcol
    simp only [paintDots, List.mem_flatMap, List.mem_filterMap,
      List.mem_range] at hop
    obtain ⟨r, _, c, _, heq⟩ := hop
    rw [dotAt_eq_some] at heq
    obtain ⟨_, _, _, hopeq⟩ := heq
    have hr' : r = row := by rw [hopeq] at hrow; exact hrow
    have hc' : c = col := by rw [hopeq] at hcol; exact hcol
    subst hr'; subst hc'
    rw [hopeq]
    exact ⟨rfl, rfl, by ring⟩

/-- Witness for `painter_dot_rule`: a 21×21 matrix whose single dark module
sits at the center `(10, 10)` of a reserve region `[8, 12]` — no dot is
drawn there; with the reservation absent the same cell gets its dot. -/
theorem painter_dot_rule_witness :
    (¬∃ op ∈ paintDots
        ((List.range 21).map fun r => (List.range 21).map fun c =>
          decide (r = 10 ∧ c = 10)) 21 41 41 8 (41/50) 5 8 12,
        op.row = 10 ∧ op.col = 10) ∧
    (∃ op ∈ paintDots
        ((List.range 21).map fun r => (List.range 21).map fun c =>
          decide (r = 10 ∧ c = 10)) 21 41 41 8 (41/50) 0 (-1) (-1),
        op.row = 10 ∧ op.col = 10) := by
  constructor
  · rw [(painter_dot_rule _ 21 41 41 8 (41/50) 5 8 12 10 10
      (by decide) (by decide)).1]
    decide
  · rw [(painter_dot_rule _ 21 41 41 8 (41/50) 0 (-1) (-1) 10 10
      (by decide) (by decide)).1]
    decide

/-- A single glyph's five rectangles cover exactly the ring plus the center
block. -/
theorem glyph_covers_iff (x y m px py : Int) (hm : 1 ≤ m) :
    (∃ r ∈ _drawFinderSquares x y m, r.covers px py) ↔
      inGlyphRing x y m px py ∨ inGlyphCenter x y m px py := by
  simp only [_drawFinderSquares, List.mem_cons, List.not_mem_nil, or_false,
    exists_eq_or_imp, exists_eq_left, Rect.covers, inGlyphRing, inGlyphSquare,
    inGlyphCenter]
  omega

/-- Glyphs at two distinct corners of `finderCorners` have disjoint square
footprints when `n ≥ 21`. -/
theorem glyph_squares_disjoint (ox oy m n px py : Int) (hm : 1 ≤ m)
    (hn : 21 ≤ n) (fr1 fc1 fr2 fc2 : Int)
    (h1 : (fr1, fc1) ∈ finderCorners n) (h2 : (fr2, fc2) ∈ finderCorners n)
    (hne : (fr1, fc1) ≠ (fr2, fc2))
    (hin1 : inGlyphSquare (ox + fc1 * m) (oy + fr1 * m) m px py) :
    ¬inGlyphSquare (ox + fc2 * m) (oy + fr2 * m) m px py := by
  have hbig : 14 * m ≤ (n - 7) * m := by
    have h14 : (14 : ℤ) ≤ n - 7 := by omega
    exact mul_le_mul_of_nonneg_right h14 (by omega)
  simp only [finderCorners, List.mem_cons, List.not_mem_nil, or_false,
    Prod.mk.injEq] at h1 h2
  unfold inGlyphSquare at hin1 ⊢
  rcases h1 with ⟨ha, hb⟩ | ⟨ha, hb⟩ | ⟨ha, hb⟩ <;>
    rcases h2 with ⟨hc, hd⟩ | ⟨hc, hd⟩ | ⟨hc, hd⟩ <;>
      subst ha <;> subst hb <;> subst hc <;> subst hd <;>
        first
        | (exact absurd rfl hne)
        | (generalize hu : (n - 7) * m = u at *; omega)

/-- C8: the finder pass paints, for each of the three corners `(0,0)`,
`(0,N−7)`, `(N−7,0)`, exactly the pixels of the outer one-module-thick
7×7-module ring plus the solid centered 3×3-module block of a glyph anchored
at `offset + cornerModule · modulePx`; the one-module-wide gap between ring
and center block receives no paint. -/
theorem finder_glyphs (ox oy m n px py : Int) (hm : 1 ≤ m) (hn : 21 ≤ n) :
    ((∃ r ∈ paintFinders ox oy m n, r.covers px py) ↔
      ∃ fc ∈ finderCorners n,
        inGlyphRing (ox + fc.2 * m) (oy + fc.1 * m) m px py ∨
        inGlyphCenter (ox + fc.2 * m) (oy + fc.1 * m) m px py) ∧
    (∀ fc ∈ finderCorners n,
      inGlyphGap (ox + fc.2 * m) (oy + fc.1 * m) m px py →
        ¬∃ r ∈ paintFinders ox oy m n, r.covers px py) := by
  have hmem : ∀ r : Rect, r ∈ paintFinders ox oy m n ↔
      ∃ fc ∈ finderCorners n,
        r ∈ _drawFinderSquares (ox + fc.2 * m) (oy + fc.1 * m) m := by
    intro r
    simp [paintFinders, List.mem_flatMap]
  have hiff : (∃ r ∈ paintFinders ox oy m n, r.covers px py) ↔
      ∃ fc ∈ finderCorners n,
        inGlyphRing (ox + fc.2 * m) (oy + fc.1 * m) m px py ∨
        inGlyphCenter (ox + fc.2 * m) (oy + fc.1 * m) m px py := by
    constructor
    · rintro ⟨r, hr, hcov⟩
      rw [hmem] at hr
      obtain ⟨fc, hfc, hrg⟩ := hr
      exact ⟨fc, hfc, (glyph_covers_iff _ _ m px py hm).mp ⟨r, hrg, hcov⟩⟩
    · rintro ⟨fc, hfc, hspec⟩
      obtain ⟨r, hrg, hcov⟩ := (glyph_covers_iff _ _ m px py hm).mpr hspec
      exact ⟨r, (hmem r).mpr ⟨fc, hfc, hrg⟩, hcov⟩
  refine ⟨hiff, ?_⟩
  rintro ⟨fr1, fc1⟩ hfc1 hgap hpaint
  rw [hiff] at hpaint
  obtain ⟨⟨fr2, fc2⟩, hfc2, hspec⟩ := hpaint
  dsimp only at hgap hspec
  by_cases heq : (fr1, fc1) = (fr2, fc2)
  · injection heq with h1 h2
    subst h1; subst h2
    unfold inGlyphGap inGlyphCenter at hgap
    unfold inGlyphRing inGlyphSquare inGlyphCenter at hspec
    omega
  · have hsq1 : inGlyphSquare (ox + fc1 * m) (oy + fr1 * m) m px py := by
      unfold inGlyphGap inGlyphCenter at hgap
      unfold inGlyphSquare
      omega
    have hsq2 : inGlyphSquare (ox + fc2 * m) (oy + fr2 * m) m px py := by
      rcases hspec with h | h
      · exact h.1
      · unfold inGlyphCenter at h
        unfold inGlyphSquare
        omega
    exact glyph_squares_disjoint ox oy m n px py hm hn fr1 fc1 fr2 fc2
      hfc1 hfc2 heq hsq1 hsq2

/-- Witness for `finder_glyphs` at `offset = (41, 41)`, `modulePx = 8`,
`N = 21`, pixel `(41, 41)` (the top-left corner pixel of the top-left
glyph's ring). -/
theorem finder_glyphs_witness :
    ((∃ r ∈ paintFinders 41 41 8 21, r.covers 41 41) ↔
      ∃ fc ∈ finderCorners 21,
        inGlyphRing (41 + fc.2 * 8) (41 + fc.1 * 8) 8 41 41 ∨
        inGlyphCenter (41 + fc.2 * 8) (41 + fc.1 * 8) 8 41 41) ∧
    (∀ fc ∈ finderCorners 21,
      inGlyphGap (41 + fc.2 * 8) (41 + fc.1 * 8) 8 41 41 →
        ¬∃ r ∈ paintFinders 41 41 8 21, r.covers 41 41) :=
  finder_glyphs 41 41 8 21 41 41 (by decide) (by decide)

/-- C9 counterexample: `dotScale = 2` is outside its documented range
`[0.5, 1.0]`, yet the render does not fail with any configuration-range
error — it runs the geometry computation and returns a complete result. -/
theorem config_range_unvalidated_counterexample :
    ¬((1:ℚ)/2 ≤ cfgDotScaleOutOfRange.dotScale ∧
        cfgDotScaleOutOfRange.dotScale ≤ 1) ∧
    (generateStyledQrFixedFill matAllLight cfgDotScaleOutOfRange).isOk = true := by
  constructor
  · intro h
    have := h.2
    norm_num [cfgDotScaleOutOfRange] at this
  · rfl

/-- The only error value the solver loop can produce is the
insufficient-canvas one. -/
theorem solveLoop_error_eq (n targetPx q : Int) (fuel : Nat) (m : Int)
    (e : RenderError) (h : solveLoop n targetPx q fuel m = .error e) :
    e = .insufficientCanvas := by
  induction fuel generalizing m with
  | zero =>
    simp only [solveLoop] at h
    split at h
    · exact absurd h (by simp)
    · simpa using h.symm
  | succ fuel ih =>
    simp only [solveLoop] at h
    split at h
    · exact absurd h (by simp)
    · exact ih _ h

/-- C9 amended: the render performs no range validation of the
configuration parameters — out-of-range numeric values are neither
rejected nor clamped before use.  For a nonempty matrix and
`minModulePx ≥ 1` (where the embedding matches the source on every
reachable state), every failure the render surfaces is either the
insufficient-canvas error — raised exactly when every candidate module
size fails the quiet-zone test — or the invalid-color error from the
`colorHex` parse of line 117; no error ever arises from a documented-range
check. -/
theorem render_no_range_validation (mat : List (List Bool))
    (cfg : StyleConfig) (e : RenderError)
    (_hmin : 1 ≤ cfg.minModulePx) (_hn : 1 ≤ mat.length)
    (h : generateStyledQrFixedFill mat cfg = .error e) :
    (e = .insufficientCanvas ∧
      ∀ m : Int, cfg.minModulePx ≤ m →
        m ≤ max cfg.minModulePx (Int.fdiv cfg.symbolPxGoal (mat.length : Int)) →
        ¬ quietOk (mat.length : Int) cfg.targetPx cfg.requiredQuietModules m) ∨
    (e = .invalidColor ∧ parseColorHex cfg.colorHex = none) := by
  unfold generateStyledQrFixedFill at h
  dsimp only at h
  rcases hcase : solve (mat.length : Int) cfg.targetPx cfg.symbolPxGoal
      cfg.minModulePx cfg.requiredQuietModules with e1 | g
  · rw [hcase] at h
    simp only [Except.error.injEq] at h
    subst h
    have he : e1 = .insufficientCanvas := by
      unfold solve at hcase
      dsimp only at hcase
      exact solveLoop_error_eq _ _ _ _ _ _ hcase
    subst he
    exact Or.inl ⟨rfl, solve_error_no_sat _ _ _ _ _ hcase⟩
  · rw [hcase] at h
    rcases hcol : parseColorHex cfg.colorHex with _ | color
    · rw [hcol] at h
      simp only [Except.error.injEq] at h
      exact Or.inr ⟨h.symm, rfl⟩
    · rw [hcol] at h
      simp at h

/-- Witness for `render_no_range_validation`: a 50-pixel canvas cannot host
a 21-module symbol with a 4-module quiet zone at `minModulePx = 3`, and the
resulting failure is the insufficient-canvas case of the disjunction. -/
theorem render_no_range_validation_witness :
    (RenderError.insufficientCanvas = RenderError.insufficientCanvas ∧
      ∀ m : Int, cfgTooSmall.minModulePx ≤ m →
        m ≤ max cfgTooSmall.minModulePx
          (Int.fdiv cfgTooSmall.symbolPxGoal (matAllLight.length : Int)) →
        ¬ quietOk (matAllLight.length : Int) cfgTooSmall.targetPx
          cfgTooSmall.requiredQuietModules m) ∨
    (RenderError.insufficientCanvas = RenderError.invalidColor ∧
      parseColorHex cfgTooSmall.colorHex = none) :=
  render_no_range_validation matAllLight cfgTooSmall .insufficientCanvas
    (by decide) (by decide) rfl

end QrGen
